import Mathlib

/-!
Verification of the command-execution / caching / status core of the
uv-vscode-extension repository (`src/uvExecutor.ts`, `src/statusBar.ts`,
`src/httpServerManager.ts`), shallowly embedded in Lean 4.

Each section embeds one component faithfully from its TypeScript source:

* Command Queue: `UVExecutor.enqueue` chains every operation onto a single
  promise (`this.commandQueue = this.commandQueue.then(() => fn())`).
* Process Runner: `UVExecutor._executeCommand` wraps `cp.exec` and always
  resolves with a `UVCommandResult`.
* Result Cache: `UVExecutor.getCached` / `setCached` /
  `invalidateAllCache(s)` over a `Map<string, {value, expires}>` with
  `cacheTTL = 1500` ms.
* Debounce: `UVStatusBar.debouncedUpdateStatus` with `debounceDelay = 300` ms
  (clearTimeout of any pending timer, then a fresh setTimeout).
* HTTP server supervisor: `HTTPServerManager.startServer` /
  `tryPython3Fallback`.
* Status aggregator: `UVStatusBar.updateStatus` / `updateProjectBars`
  try/catch structure.
-/

namespace UVExt

/-! ## Command Queue (`UVExecutor.enqueue` / `executeCommand`)

The queue is a single promise chain.  JavaScript promise semantics:
`p.then(f)` runs `f` only when `p` fulfills; when `p` rejects, `f` is
skipped and the derived promise rejects with the same reason.  We model a
submitted operation by whether its promise rejects and by how long it runs,
and we model the whole chain by replaying the submissions in order, keeping
track of whether the chain promise is currently fulfilled or rejected.
Time is a `Nat` (milliseconds); the event loop is single threaded, so an
operation that does run occupies the interval `[start, finish]`. -/

/-- One operation handed to `enqueue`: whether its promise eventually
rejects, and how long it runs when it is actually started. -/
structure QOp where
  rejects : Bool
  duration : Nat
deriving DecidableEq, Repr

/-- The settled state of the chain promise `this.commandQueue`. -/
inductive ChainStatus where
  | fulfilled
  | rejectedChain
deriving DecidableEq, Repr

/-- A record of one actual start of the operation body (one external-binary
invocation for operations submitted through `executeCommand`). -/
structure Invocation where
  opIdx : Nat
  start : Nat
  finish : Nat
deriving DecidableEq, Repr

/-- Replay of the promise chain built by
`enqueue(fn) { this.commandQueue = this.commandQueue.then(() => fn()); }`:
when the previous link fulfilled, the next operation runs (producing an
invocation) and the chain takes that operation's outcome; when the previous
link rejected, `.then` skips the callback, so the operation never runs and
the chain stays rejected. -/
def runChain : ChainStatus → Nat → Nat → List QOp → List Invocation
  | _, _, _, [] => []
  | ChainStatus.fulfilled, t, i, op :: rest =>
      { opIdx := i, start := t, finish := t + op.duration } ::
        runChain (if op.rejects then ChainStatus.rejectedChain else ChainStatus.fulfilled)
          (t + op.duration) (i + 1) rest
  | ChainStatus.rejectedChain, t, i, _ :: rest =>
      runChain ChainStatus.rejectedChain t (i + 1) rest

/-- The whole queue: `commandQueue` starts as `Promise.resolve()`. -/
def runQueue (ops : List QOp) : List Invocation :=
  runChain ChainStatus.fulfilled 0 0 ops

/-- An operation submitted through `executeCommand` is
`() => this._executeCommand(args, cwd)`; `_executeCommand` always resolves
(see `executeCommand'` below), so such an operation never rejects. -/
def resolvesAlways (ops : List QOp) : Prop :=
  ∀ op ∈ ops, op.rejects = false

instance (ops : List QOp) : Decidable (resolvesAlways ops) := by
  unfold resolvesAlways; infer_instance

/-- Once the chain promise is rejected, `.then` never fires again: no later
operation is ever started. -/
theorem runChain_rejected (l : List QOp) (t i : Nat) :
    runChain ChainStatus.rejectedChain t i l = [] := by
  induction l generalizing t i with
  | nil => rfl
  | cons op rest ih => simpa [runChain] using ih (t) (i + 1)

/-- Helper: as long as every operation fulfills, the chain replays them back
to back: each submission is started exactly once, in submission order, each
start waiting for the previous finish. -/
theorem runChain_fulfilled_spec (l : List QOp) (t i : Nat)
    (h : ∀ op ∈ l, op.rejects = false) :
    (runChain ChainStatus.fulfilled t i l).length = l.length ∧
    (runChain ChainStatus.fulfilled t i l).map Invocation.opIdx = List.range' i l.length ∧
    List.Chain' (fun a b => a.finish ≤ b.start) (runChain ChainStatus.fulfilled t i l) ∧
    ∀ inv ∈ runChain ChainStatus.fulfilled t i l, t ≤ inv.start := by
  induction l generalizing t i with
  | nil => simp [runChain]
  | cons op rest ih =>
      have hop : op.rejects = false := h op (List.mem_cons_self _ _)
      have hrest : ∀ o ∈ rest, o.rejects = false := fun o ho => h o (List.mem_cons_of_mem _ ho)
      obtain ⟨ihlen, ihmap, ihchain, ihlb⟩ := ih (t + op.duration) (i + 1) hrest
      have hrun : runChain ChainStatus.fulfilled t i (op :: rest) =
          { opIdx := i, start := t, finish := t + op.duration } ::
            runChain ChainStatus.fulfilled (t + op.duration) (i + 1) rest := by
        simp [runChain, hop]
      refine ⟨?_, ?_, ?_, ?_⟩
      · simp [hrun, ihlen]
      · simp [hrun, ihmap, List.range'_succ]
      · rw [hrun, List.chain'_cons']
        refine ⟨?_, ihchain⟩
        intro b hb
        have hbmem : b ∈ runChain ChainStatus.fulfilled (t + op.duration) (i + 1) rest :=
          List.mem_of_mem_head? hb
        exact ihlb b hbmem
      · intro inv hinv
        rw [hrun] at hinv
        rcases List.mem_cons.mp hinv with hinv | hinv
        · simp [hinv]
        · exact le_trans (Nat.le_add_right t op.duration) (ihlb inv hinv)

/-- C1: for a sequence of `N` operations submitted through
`executeCommand`/`enqueue` (whose bodies always resolve, as
`_executeCommand` does), the binary is invoked exactly `N` times, in
submission order, and each invocation starts no earlier than the previous
operation's promise settles, so no two invocations overlap. -/
theorem queue_serializes (ops : List QOp) (h : resolvesAlways ops) :
    (runQueue ops).length = ops.length ∧
    (runQueue ops).map Invocation.opIdx = List.range ops.length ∧
    List.Chain' (fun a b => a.finish ≤ b.start) (runQueue ops) := by
  obtain ⟨hlen, hmap, hchain, _⟩ := runChain_fulfilled_spec ops 0 0 h
  exact ⟨hlen, by simpa [List.range_eq_range'] using hmap, hchain⟩

/-- Witness for `queue_serializes` at a concrete three-operation queue. -/
theorem queue_serializes_witness :
    resolvesAlways [⟨false, 2⟩, ⟨false, 3⟩, ⟨false, 1⟩] ∧
    ((runQueue [⟨false, 2⟩, ⟨false, 3⟩, ⟨false, 1⟩]).length = 3 ∧
      (runQueue [⟨false, 2⟩, ⟨false, 3⟩, ⟨false, 1⟩]).map Invocation.opIdx = List.range 3 ∧
      List.Chain' (fun a b => a.finish ≤ b.start)
        (runQueue [⟨false, 2⟩, ⟨false, 3⟩, ⟨false, 1⟩])) :=
  ⟨by decide, queue_serializes [⟨false, 2⟩, ⟨false, 3⟩, ⟨false, 1⟩] (by decide)⟩

/-- C2 counterexample: enqueue a rejecting operation followed by a normal
one; the second operation is never executed (no invocation with index 1),
because `.then` skips its callback when the chain promise is rejected. -/
theorem rejected_chain_blocks_successor :
    ¬ (∃ inv ∈ runQueue [⟨true, 1⟩, ⟨false, 1⟩], inv.opIdx = 1) := by
  decide

/-- C2 amended: if the first operation's promise rejects, the second (and
every later) operation is never executed — only the first operation runs. -/
theorem rejected_chain_stops_queue (op1 : QOp) (rest : List QOp)
    (h : op1.rejects = true) :
    runQueue (op1 :: rest) = [{ opIdx := 0, start := 0, finish := op1.duration }] := by
  simp [runQueue, runChain, h, runChain_rejected]

/-- Witness for `rejected_chain_stops_queue` at a concrete queue. -/
theorem rejected_chain_stops_queue_witness :
    (QOp.mk true 5).rejects = true ∧
    runQueue [⟨true, 5⟩, ⟨false, 2⟩] = [{ opIdx := 0, start := 0, finish := 5 }] :=
  ⟨rfl, rejected_chain_stops_queue ⟨true, 5⟩ [⟨false, 2⟩] rfl⟩

/-! ## Process Runner (`UVExecutor._executeCommand`)

`_executeCommand` builds `new Promise((resolve) => ...)` and only ever
calls `resolve`, so it never rejects (here: it is a total function into
`UVCommandResult`).  `cp.exec`'s callback receives `(error, stdout,
stderr)`; `error` is `null` exactly when the process was spawned and exited
with code 0, so the outcome of one `cp.exec` call is modelled by the exit
code (0 = no error; binary-not-found and other spawn failures report a
nonzero code), the reported `error.message`, and the captured streams. -/

/-- `UVCommandResult` from `uvExecutor.ts`. -/
structure UVCommandResult where
  success : Bool
  output : String
  error : Option String
deriving DecidableEq, Repr

/-- The outcome `cp.exec` delivers to its callback. `exitCode = 0` iff the
`error` argument was `null`; `errMessage` is `error.message` otherwise. -/
structure ExecOutcome where
  exitCode : Nat
  errMessage : String
  stdout : String
  stderr : String
deriving DecidableEq, Repr

/-- JavaScript truthiness of `cwd || this.getWorkspaceRoot()`:
`undefined` and the empty string are falsy. -/
def jsOrStr (a b : Option String) : Option String :=
  match a with
  | some s => if s = "" then b else some s
  | none => b

/-- JavaScript truthiness test used by `if (!workspaceRoot)`. -/
def strTruthy : Option String → Bool
  | none => false
  | some s => !(s = "")

/-- `UVExecutor._executeCommand(args, cwd)`: resolve
`{success:false, output:'', error:'No workspace root found'}` when no
working directory is available; otherwise run `cp.exec` and resolve
`{success:false, output:stdout, error:stderr || error.message}` on error
and `{success:true, output:stdout, error:stderr}` otherwise.  The `args`
only influence the spawned command line, not the result shape, so they are
not parameters of the model. -/
def executeCommandRun (cwdOpt wsRoot : Option String) (exec : ExecOutcome) :
    UVCommandResult :=
  let workspaceRoot := jsOrStr cwdOpt wsRoot
  if strTruthy workspaceRoot = false then
    { success := false, output := "", error := some "No workspace root found" }
  else if exec.exitCode = 0 then
    { success := true, output := exec.stdout, error := some exec.stderr }
  else
    { success := false, output := exec.stdout,
      error := some (if exec.stderr = "" then exec.errMessage else exec.stderr) }

/-- C3: the Process Runner is total (never rejects/throws — it is a
function into `UVCommandResult`), `success` holds exactly when a working
directory was available and the exit code was 0, and: a missing workspace
root resolves to `success=false` with the fixed error message; a `cp.exec`
error (nonzero exit, binary not found, …) resolves to `success=false` with
`output` the captured stdout and `error` the captured stderr or, when
stderr is empty, the reported error message; exit code 0 resolves to
`success=true` with stdout as output. -/
theorem processRunner_spec (cwdOpt wsRoot : Option String) (exec : ExecOutcome) :
    ((executeCommandRun cwdOpt wsRoot exec).success = true ↔
      (strTruthy (jsOrStr cwdOpt wsRoot) = true ∧ exec.exitCode = 0)) ∧
    (strTruthy (jsOrStr cwdOpt wsRoot) = false →
      executeCommandRun cwdOpt wsRoot exec =
        { success := false, output := "", error := some "No workspace root found" }) ∧
    (strTruthy (jsOrStr cwdOpt wsRoot) = true → exec.exitCode ≠ 0 →
      executeCommandRun cwdOpt wsRoot exec =
        { success := false, output := exec.stdout,
          error := some (if exec.stderr = "" then exec.errMessage else exec.stderr) }) ∧
    (strTruthy (jsOrStr cwdOpt wsRoot) = true → exec.exitCode = 0 →
      executeCommandRun cwdOpt wsRoot exec =
        { success := true, output := exec.stdout, error := some exec.stderr }) := by
  refine ⟨?_, fun hroot => ?_, fun hroot hexit => ?_, fun hroot hexit => ?_⟩
  · unfold executeCommandRun
    rcases hroot : strTruthy (jsOrStr cwdOpt wsRoot) with _ | _
    · simp [hroot]
    · rcases hexit : exec.exitCode with _ | n <;> simp [hroot, hexit]
  · simp [executeCommandRun, hroot]
  · simp [executeCommandRun, hroot, hexit]
  · simp [executeCommandRun, hroot, hexit]

/-- Witness for `processRunner_spec`: binary exits 1 with empty stderr
inside workspace `/w`, so the reported error message is surfaced. -/
theorem processRunner_spec_witness :
    executeCommandRun none (some "/w") ⟨1, "spawn uv ENOENT", "partial", ""⟩ =
      { success := false, output := "partial", error := some "spawn uv ENOENT" } :=
  (processRunner_spec none (some "/w") ⟨1, "spawn uv ENOENT", "partial", ""⟩).2.2.1
    (by decide) (by decide)

/-! ## Result Cache (`UVExecutor.getCached` / `setCached` / `invalidateAllCache`)

The cache is `Map<string, {value:any, expires:number}>`; only keyed
lookup, keyed overwrite, keyed delete and clear are used, so the `Map` is
embedded as a function from keys to optional entries.  `Date.now()` is an
explicit `now : Nat` (milliseconds) parameter. -/

/-- A stored cache entry `{ value, expires }`. -/
structure CacheEntry (α : Type) where
  value : α
  expires : Nat

/-- The `Map` backing `UVExecutor.cache`, observed through keyed lookup. -/
def CacheMap (α : Type) := String → Option (CacheEntry α)

/-- `Map.prototype.get`. -/
def mapGet {α : Type} (c : CacheMap α) (k : String) : Option (CacheEntry α) := c k

/-- `Map.prototype.set` (overwrite or insert at `k`). -/
def mapSet {α : Type} (c : CacheMap α) (k : String) (e : CacheEntry α) : CacheMap α :=
  fun k' => if k' = k then some e else c k'

/-- `Map.prototype.delete`. -/
def mapDelete {α : Type} (c : CacheMap α) (k : String) : CacheMap α :=
  fun k' => if k' = k then none else c k'

/-- `Map.prototype.clear`. -/
def mapClear {α : Type} : CacheMap α := fun _ => none

/-- The empty cache the executor starts with. -/
def emptyCache {α : Type} : CacheMap α := fun _ => none

/-- `cacheTTL = 1500; // ms`. -/
def cacheTTL : Nat := 1500

/-- `getCached(key)`: return the entry's value if `entry.expires >
Date.now()`; otherwise, if an (expired) entry exists, delete it; return
`undefined` on a miss.  The pair is (returned value, cache afterwards). -/
def getCached {α : Type} (now : Nat) (c : CacheMap α) (k : String) :
    Option α × CacheMap α :=
  match mapGet c k with
  | some entry => if now < entry.expires then (some entry.value, c) else (none, mapDelete c k)
  | none => (none, c)

/-- `setCached(key, value)`: store with `expires = Date.now() + cacheTTL`. -/
def setCached {α : Type} (now : Nat) (c : CacheMap α) (k : String) (v : α) : CacheMap α :=
  mapSet c k { value := v, expires := now + cacheTTL }

/-- `invalidateCache(key)`. -/
def invalidateCache {α : Type} (c : CacheMap α) (k : String) : CacheMap α :=
  mapDelete c k

/-- `invalidateAllCache()`: `this.cache.clear()`. -/
def invalidateAllCache {α : Type} (_c : CacheMap α) : CacheMap α := mapClear

/-- Public `invalidateAllCaches()` just delegates to `invalidateAllCache`. -/
def invalidateAllCaches {α : Type} (c : CacheMap α) : CacheMap α :=
  invalidateAllCache c

/-- C4: after `setCached` at time `T`, `getCached` at any `T'` with
`T < T' < T + 1.5s` returns the value; at any `T' ≥ T + 1.5s` it returns
absent and the expired entry is deleted from the store; and in general,
whenever `getCached` finds an entry that has expired, the entry is removed
from the store. -/
theorem cache_ttl_spec {α : Type} (c : CacheMap α) (k : String) (v : α) (T T' : Nat) :
    (T < T' → T' < T + cacheTTL →
      (getCached T' (setCached T c k v) k).1 = some v) ∧
    (T + cacheTTL ≤ T' →
      (getCached T' (setCached T c k v) k).1 = none ∧
      mapGet (getCached T' (setCached T c k v) k).2 k = none) ∧
    (∀ entry, mapGet c k = some entry → entry.expires ≤ T' →
      (getCached T' c k).1 = none ∧ mapGet (getCached T' c k).2 k = none) := by
  refine ⟨fun _ hlt => ?_, fun hge => ?_, fun entry hent hexp => ?_⟩
  · simp [getCached, setCached, mapSet, mapGet, hlt]
  · have hnot : ¬ T' < T + cacheTTL := Nat.not_lt.mpr hge
    refine ⟨?_, ?_⟩ <;> simp [getCached, setCached, mapSet, mapGet, mapDelete, hnot]
  · have hnot : ¬ T' < entry.expires := Nat.not_lt.mpr hexp
    have hent' : c k = some entry := hent
    refine ⟨?_, ?_⟩ <;> simp [getCached, mapGet, mapDelete, hent', hnot]

/-- Witness for `cache_ttl_spec`: set at `T = 0`, hit at `T' = 1000`, miss
(with deletion) at `T' = 1500` on an initially empty `Nat` cache, and
explicit expired-entry deletion. -/
theorem cache_ttl_spec_witness :
    ((getCached 1000 (setCached 0 (emptyCache (α := Nat)) "deps" 7) "deps").1 = some 7) ∧
    ((getCached 1500 (setCached 0 (emptyCache (α := Nat)) "deps" 7) "deps").1 = none ∧
      mapGet (getCached 1500 (setCached 0 (emptyCache (α := Nat)) "deps" 7) "deps").2
        "deps" = none) := by
  have h := cache_ttl_spec (emptyCache (α := Nat)) "deps" 7 0 1000
  have h' := cache_ttl_spec (emptyCache (α := Nat)) "deps" 7 0 1500
  exact ⟨h.1 (by decide) (by decide), h'.2.1 (by decide)⟩

/-- C5: after `invalidateAllCaches()`, the next `getCached` misses for
every key — in particular for a key set at any earlier time and not yet
expired. -/
theorem invalidateAll_clears {α : Type} (c : CacheMap α) (k k' : String) (v : α)
    (T now : Nat) :
    (getCached now (invalidateAllCaches c) k).1 = none ∧
    (getCached now (invalidateAllCaches (setCached T c k' v)) k').1 = none := by
  constructor <;>
    simp [getCached, invalidateAllCaches, invalidateAllCache, mapClear, mapGet]

/-! ## Debounced refresh (`UVStatusBar.debouncedUpdateStatus`)

```
if (this.debounceTimer) { clearTimeout(this.debounceTimer); }
this.debounceTimer = setTimeout(() => { this.updateStatus(); }, this.debounceDelay);
```

Each call cancels the pending timer (if any) and arms a fresh one for
`debounceDelay` ms later.  For a non-decreasing list of call times, a timer
armed at `t` fires at `t + debounceDelay` unless the next call happens
strictly before that instant (a call at exactly `t + debounceDelay` finds
the timer already fired).  `fireTimes` returns the instants at which
`updateStatus` is triggered. -/

/-- `debounceDelay = 300` ms. -/
def debounceDelay : Nat := 300

/-- Fire times of `updateStatus` produced by a sequence of
`debouncedUpdateStatus` calls at the given (non-decreasing) times. -/
def fireTimes : List Nat → List Nat
  | [] => []
  | [t] => [t + debounceDelay]
  | t :: t' :: rest =>
      if t' < t + debounceDelay then fireTimes (t' :: rest)
      else (t + debounceDelay) :: fireTimes (t' :: rest)

/-- C6: for a burst of `debouncedUpdateStatus` calls all lying within one
300 ms window after the first call, exactly one `updateStatus` is
triggered, and it runs at (hence no earlier than) 300 ms after the last
call of the burst. -/
theorem debounce_trailing_edge (t0 : Nat) (rest : List Nat)
    (hsorted : List.Chain' (· ≤ ·) (t0 :: rest))
    (hburst : ∀ t ∈ t0 :: rest, t < t0 + debounceDelay) :
    fireTimes (t0 :: rest) =
      [(t0 :: rest).getLast (List.cons_ne_nil t0 rest) + debounceDelay] := by
  induction rest generalizing t0 with
  | nil => simp [fireTimes]
  | cons t1 rest' ih =>
      have h01 : t0 ≤ t1 := (List.chain'_cons.mp hsorted).1
      have h1lt : t1 < t0 + debounceDelay := hburst t1 (by simp)
      have hsorted' : List.Chain' (· ≤ ·) (t1 :: rest') := (List.chain'_cons.mp hsorted).2
      have hburst' : ∀ t ∈ t1 :: rest', t < t1 + debounceDelay := by
        intro t ht
        have : t < t0 + debounceDelay := hburst t (List.mem_cons_of_mem _ ht)
        omega
      have hrec := ih t1 hsorted' hburst'
      have hglast : (t0 :: t1 :: rest').getLast (List.cons_ne_nil t0 (t1 :: rest')) =
          (t1 :: rest').getLast (List.cons_ne_nil t1 rest') :=
        List.getLast_cons (List.cons_ne_nil t1 rest')
      rw [hglast]
      simpa [fireTimes, h1lt] using hrec

/-- Witness for `debounce_trailing_edge`: calls at 0, 100 and 250 ms fire a
single recomputation at 550 ms. -/
theorem debounce_trailing_edge_witness :
    List.Chain' (· ≤ ·) [0, 100, 250] ∧
    (∀ t ∈ [0, 100, 250], t < 0 + debounceDelay) ∧
    fireTimes [0, 100, 250] =
      [([0, 100, 250] : List Nat).getLast (List.cons_ne_nil 0 [100, 250]) + debounceDelay] :=
  have hchain : List.Chain' (· ≤ ·) [0, 100, 250] := by
    simp [List.chain'_cons, List.chain'_singleton]
  ⟨hchain, by decide, debounce_trailing_edge 0 [100, 250] hchain (by decide)⟩

/-! ## HTTP server supervisor (`HTTPServerManager`)

`startServer(folder, port)` refuses to start while `this.running`;
otherwise it records the folder/port, picks the interpreter command
(`'python'` on win32, `'python3'` elsewhere) and spawns
`<cmd> -m http.server <port>`.  `cp.spawn` reports a missing executable
asynchronously through the `'error'` event with `err.code === 'ENOENT'`:

* handler sees `pythonCmd === 'python'` → `tryPython3Fallback` spawns
  `'python3'` once; its own ENOENT handler reports "Neither 'python' nor
  'python3' …" and clears `running` (no second retry);
* handler sees `pythonCmd === 'python3'` → it reports "'python3' was not
  found …" and clears `running`, with **no** fallback attempt.

The model records the state after these events have settled, the list of
commands handed to `cp.spawn`, and `startServer`'s resolved boolean (the
synchronous path resolves `true` before any `'error'` event can fire). -/

/-- Mutable fields of `HTTPServerManager` observed by the claims. -/
structure ServerState where
  running : Bool
  currentPort : Nat
  currentFolder : String
deriving DecidableEq, Repr

/-- The interpreter command chosen by `startServer`. -/
def primaryCmd (win32 : Bool) : String := if win32 then "python" else "python3"

/-- `tryPython3Fallback`: one spawn of `'python3'`; `running` ends up true
iff the command exists (ENOENT otherwise clears it, with no further
retry). -/
def tryPython3Fallback (st : ServerState) (cmdFound : String → Bool) :
    List String × ServerState :=
  if cmdFound "python3" then (["python3"], { st with running := true })
  else (["python3"], { st with running := false })

/-- `startServer(folder, port)`: resolved boolean, spawned commands (in
order), and the supervisor state once any `'error'` events have been
handled. -/
def startServer (st : ServerState) (win32 : Bool) (cmdFound : String → Bool)
    (folder : String) (port : Nat) : Bool × List String × ServerState :=
  if st.running then (false, [], st)
  else
    let st1 := { st with currentFolder := folder, currentPort := port }
    let cmd := primaryCmd win32
    if cmdFound cmd then (true, [cmd], { st1 with running := true })
    else if cmd = "python" then
      let fb := tryPython3Fallback st1 cmdFound
      (true, cmd :: fb.1, fb.2)
    else (true, [cmd], { st1 with running := false })

/-- C7: calling `startServer` while `running` is a rejected no-op — it
returns `false`, spawns nothing, and leaves the stored port and folder (the
whole supervisor state) unchanged. -/
theorem startServer_while_running (st : ServerState) (win32 : Bool)
    (cmdFound : String → Bool) (folder : String) (port : Nat)
    (h : st.running = true) :
    startServer st win32 cmdFound folder port = (false, [], st) := by
  simp [startServer, h]

/-- Witness for `startServer_while_running`: a server already running on
port 8080 in `/srv` ignores `startServer("/tmp/site", 8000)`. -/
theorem startServer_while_running_witness :
    startServer ⟨true, 8080, "/srv"⟩ false (fun _ => true) "/tmp/site" 8000 =
      (false, [], ⟨true, 8080, "/srv"⟩) :=
  startServer_while_running ⟨true, 8080, "/srv"⟩ false (fun _ => true) "/tmp/site" 8000 rfl

/-- C8 counterexample: on a non-Windows host whose `python3` is missing but
whose `python` exists, `startServer` spawns only the primary `'python3'` —
it attempts no alternate interpreter command at all and ends not running,
even though the alternate exists.  This falsifies the claim that a missing
primary interpreter is always followed by exactly one fallback attempt that
reaches Running when the fallback command exists. -/
theorem fallback_not_attempted_on_posix :
    (startServer ⟨false, 8000, ""⟩ false (fun c => c == "python") "/tmp/site" 8000).2.1 =
        ["python3"] ∧
    (startServer ⟨false, 8000, ""⟩ false (fun c => c == "python") "/tmp/site" 8000).2.2.running =
        false := by
  constructor <;> rfl

/-- C8 amended: the single-fallback policy only exists on win32, where the
primary command is `'python'`: there, a missing primary leads to exactly
one `'python3'` fallback attempt (never a second retry), which reaches
Running exactly when `python3` exists.  On other platforms the primary is
`'python3'` and a missing primary is reported with no fallback attempt.
In every case at most two spawns happen. -/
theorem startServer_fallback_policy (st : ServerState) (win32 : Bool)
    (cmdFound : String → Bool) (folder : String) (port : Nat)
    (hidle : st.running = false)
    (hmissing : cmdFound (primaryCmd win32) = false) :
    (win32 = true →
      (startServer st win32 cmdFound folder port).2.1 = ["python", "python3"] ∧
      (startServer st win32 cmdFound folder port).2.2.running = cmdFound "python3") ∧
    (win32 = false →
      (startServer st win32 cmdFound folder port).2.1 = ["python3"] ∧
      (startServer st win32 cmdFound folder port).2.2.running = false) ∧
    (startServer st win32 cmdFound folder port).2.1.length ≤ 2 := by
  cases win32 with
  | false =>
      have hmissing' : cmdFound "python3" = false := hmissing
      refine ⟨fun hw => Bool.noConfusion hw, fun _ => ?_, ?_⟩
      · constructor <;> simp [startServer, hidle, primaryCmd, hmissing']
      · simp [startServer, hidle, primaryCmd, hmissing']
  | true =>
      have hmissing' : cmdFound "python" = false := hmissing
      refine ⟨fun _ => ?_, fun hw => Bool.noConfusion hw, ?_⟩
      · constructor <;> cases hfb : cmdFound "python3" <;>
          simp [startServer, hidle, primaryCmd, hmissing', tryPython3Fallback, hfb]
      · cases hfb : cmdFound "python3" <;>
          simp [startServer, hidle, primaryCmd, hmissing', tryPython3Fallback, hfb]

/-- Witness for `startServer_fallback_policy`: win32 host with `python`
missing and `python3` present starts via the single fallback. -/
theorem startServer_fallback_policy_witness :
    (startServer ⟨false, 8000, ""⟩ true (fun c => c == "python3") "/tmp/site" 8000).2.1 =
        ["python", "python3"] ∧
    (startServer ⟨false, 8000, ""⟩ true (fun c => c == "python3") "/tmp/site" 8000).2.2.running =
        (fun c => c == "python3") "python3" :=
  (startServer_fallback_policy ⟨false, 8000, ""⟩ true (fun c => c == "python3")
    "/tmp/site" 8000 rfl (by decide)).1 rfl

/-! ## Status aggregator (`UVStatusBar.updateStatus` / `updateProjectBars`)

Both methods wrap their whole body in `try { ... } catch`.  A sub-call
that may throw is modelled as a `Res`; `.thrown` propagates like a raised
exception until a `catch` turns it into the handler's result.  The display
facts the claim talks about are the main status-bar item's presentation
and whether the per-project bars are shown. -/

/-- Outcome of an awaited sub-call: a value, or a raised exception. -/
inductive Res (α : Type) where
  | ok : α → Res α
  | thrown : Res α
deriving DecidableEq, Repr

/-- The three presentations the main status-bar item can take in
`updateStatus`: `$(error) UV not found` / `uv.help`,
`$(check) UV Project` / `uv.showQuickActions`, and the uninitialized
`$(plus) UV` / `uv.init`. -/
inductive MainItem where
  | uvNotFound
  | projectActive
  | initAction
deriving DecidableEq, Repr

/-- The displayed state the claims observe. -/
structure Display where
  mainItem : MainItem
  projectBarsVisible : Bool
deriving DecidableEq, Repr

/-- The environment `updateStatus` runs against: the outcomes of
`hasProjectFiles()`, `checkUVInstalled()`, and of the body of
`updateProjectBars` (the block of `getProjectInfo`/`getDependencies`/…
calls and bar assignments, which either completes showing the bars or
throws somewhere inside). -/
structure StatusEnv where
  hasProjectFiles : Res Bool
  checkUVInstalled : Res Bool
  projectBarsBody : Res Unit
deriving DecidableEq, Repr

/-- `updateProjectBars`: `try { ...populate and show bars... } catch
{ console.error(...); this.hideProjectBars(); }` — the catch hides the
sub-bars and swallows the exception, leaving the main item alone. -/
def updateProjectBars (env : StatusEnv) (d : Display) : Res Display :=
  match env.projectBarsBody with
  | Res.ok _ => Res.ok { d with projectBarsVisible := true }
  | Res.thrown => Res.ok { d with projectBarsVisible := false }

/-- The `try` body of `updateStatus`: await `hasProjectFiles` and
`checkUVInstalled` (either may throw); on `!isUVInstalled` show the
degraded item and hide the bars; otherwise set the main item from
`hasProject` and either run `updateProjectBars` or hide the bars. -/
def updateStatusBody (env : StatusEnv) (d : Display) : Res Display :=
  match env.hasProjectFiles with
  | Res.thrown => Res.thrown
  | Res.ok hasProject =>
    match env.checkUVInstalled with
    | Res.thrown => Res.thrown
    | Res.ok isUVInstalled =>
      if !isUVInstalled then
        Res.ok { mainItem := MainItem.uvNotFound, projectBarsVisible := false }
      else
        let d1 : Display :=
          { d with mainItem := if hasProject then MainItem.projectActive
                               else MainItem.initAction }
        if hasProject then updateProjectBars env d1
        else Res.ok { d1 with projectBarsVisible := false }

/-- `updateStatus` with its `catch`: on any exception escaping the body,
fall back to the `$(plus) UV` / `uv.init` item and hide the bars. -/
def updateStatus (env : StatusEnv) (d : Display) : Res Display :=
  match updateStatusBody env d with
  | Res.ok d' => Res.ok d'
  | Res.thrown =>
      Res.ok { mainItem := MainItem.initAction, projectBarsVisible := false }

/-- C10 counterexample: with a detected project and uv installed, an
exception raised inside `updateProjectBars` (e.g. in `getProjectInfo`) is
caught, but the resulting display keeps the project-active main item — it
is not the uninitialized (init-action) presentation the claim requires. -/
theorem aggregator_keeps_project_item_on_inner_error :
    updateStatus ⟨Res.ok true, Res.ok true, Res.thrown⟩
        ⟨MainItem.initAction, false⟩ =
      Res.ok ⟨MainItem.projectActive, false⟩ ∧
    MainItem.projectActive ≠ MainItem.initAction := by
  refine ⟨rfl, by decide⟩

/-- C10 amended: no exception ever escapes `updateStatus` (it always
returns a display).  An exception in `updateStatus`'s own awaits
(`hasProjectFiles` / `checkUVInstalled`) yields the uninitialized
presentation with all sub-bars hidden; an exception inside
`updateProjectBars` is caught there, hiding the sub-bars but leaving the
main item in the project-active presentation. -/
theorem aggregator_catches_all (env : StatusEnv) (d : Display) :
    (∃ d', updateStatus env d = Res.ok d') ∧
    (env.hasProjectFiles = Res.thrown ∨ env.checkUVInstalled = Res.thrown →
      updateStatus env d =
        Res.ok { mainItem := MainItem.initAction, projectBarsVisible := false }) ∧
    (env.hasProjectFiles = Res.ok true → env.checkUVInstalled = Res.ok true →
      env.projectBarsBody = Res.thrown →
      updateStatus env d =
        Res.ok { mainItem := MainItem.projectActive, projectBarsVisible := false }) := by
  refine ⟨?_, ?_, ?_⟩
  · cases h : updateStatusBody env d with
    | ok d' => exact ⟨d', by simp [updateStatus, h]⟩
    | thrown =>
        exact ⟨{ mainItem := MainItem.initAction, projectBarsVisible := false },
          by simp [updateStatus, h]⟩
  · rintro (hp | hu)
    · simp [updateStatus, updateStatusBody, hp]
    · rcases hp : env.hasProjectFiles with hasProject | _ <;>
        simp [updateStatus, updateStatusBody, hp, hu]
  · intro hp hu hb
    simp [updateStatus, updateStatusBody, updateProjectBars, hp, hu, hb]

/-- Witness for `aggregator_catches_all`: `hasProjectFiles` throwing falls
back to the uninitialized presentation. -/
theorem aggregator_catches_all_witness :
    updateStatus ⟨Res.thrown, Res.ok true, Res.ok ()⟩
        ⟨MainItem.projectActive, true⟩ =
      Res.ok { mainItem := MainItem.initAction, projectBarsVisible := false } :=
  (aggregator_catches_all ⟨Res.thrown, Res.ok true, Res.ok ()⟩
    ⟨MainItem.projectActive, true⟩).2.1 (Or.inl rfl)

/-! ## Version-pin file round trip
(`UVExecutor.updatePythonVersionFile` / `getPythonVersionFromFiles`)

`updatePythonVersionFile` writes `version + '\n'` to `.python-version`.
`getPythonVersionFromFiles` reads that file, trims it, and — when the
trimmed content is non-empty — extracts a version from the toolchain id
with `toolchainId.match` against the regular expression
`-(\d+\.[\dabrc]+(?:\.[\dabrc]+)?)`, returning the captured group on a
match and the whole trimmed content otherwise;
when the pin file is missing or blank it falls back to the
`requires-python` extraction from `pyproject.toml` (modelled as an opaque
fallback value). -/

/-- Whitespace for `String.prototype.trim`. -/
def isWsChar (c : Char) : Bool :=
  c = ' ' || c = '\t' || c = '\n' || c = '\r' || c = '\x0b' || c = '\x0c'

/-- `String.prototype.trim`. -/
def jsTrim (s : String) : String :=
  String.mk (((s.toList.dropWhile isWsChar).reverse.dropWhile isWsChar).reverse)

/-- The character class `[\dabrc]`. -/
def isVerChar (c : Char) : Bool :=
  c.isDigit || c = 'a' || c = 'b' || c = 'r' || c = 'c'

/-- Match `\d+\.[\dabrc]+(?:\.[\dabrc]+)?` at the start of `cs`, returning
the matched characters (the regex's capture group starts right after the
hyphen).  The quantifiers are greedy; since `'.'` belongs to neither
character class, maximal munch needs no backtracking. -/
def matchVersionAt (cs : List Char) : Option (List Char) :=
  let ds := cs.takeWhile Char.isDigit
  if ds.isEmpty then none
  else
    match cs.drop ds.length with
    | '.' :: r1 =>
        let vs := r1.takeWhile isVerChar
        if vs.isEmpty then none
        else
          match r1.drop vs.length with
          | '.' :: r2 =>
              let vs2 := r2.takeWhile isVerChar
              if vs2.isEmpty then some (ds ++ '.' :: vs)
              else some (ds ++ '.' :: vs ++ '.' :: vs2)
          | _ => some (ds ++ '.' :: vs)
    | _ => none

/-- First match of the pattern `-(\d+\.[\dabrc]+(?:\.[\dabrc]+)?)`
scanning left to right, returning the capture group. -/
def findHyphenVersion : List Char → Option (List Char)
  | [] => none
  | c :: rest =>
      if c = '-' then
        match matchVersionAt rest with
        | some m => some m
        | none => findHyphenVersion rest
      else findHyphenVersion rest

/-- `return match ? match[1] : toolchainId`. -/
def extractVersionFromToolchainId (toolchainId : String) : String :=
  match findHyphenVersion toolchainId.toList with
  | some m => String.mk m
  | none => toolchainId

/-- `updatePythonVersionFile(workspaceRoot, version)`: the bytes written to
`.python-version` are `version + '\n'`. -/
def updatePythonVersionFile (version : String) : String := version ++ "\n"

/-- `getPythonVersionFromFiles()`: `null` without a workspace root; else
read `.python-version` (`pinFile`, `none` when unreadable), trim it, and
if non-empty extract the version from the toolchain id; otherwise fall
back to the `requires-python` lookup in `pyproject.toml`. -/
def getPythonVersionFromFiles (wsRoot : Option String)
    (pinFile : Option String) (pyprojectVersion : Option String) : Option String :=
  match wsRoot with
  | none => none
  | some _ =>
    match pinFile with
    | some content =>
        let toolchainId := jsTrim content
        if toolchainId = "" then pyprojectVersion
        else some (extractVersionFromToolchainId toolchainId)
    | none => pyprojectVersion

/-- The `major.minor` part of a dotted version string. -/
def majorMinor (s : String) : String :=
  String.intercalate "." ((s.splitOn ".").take 2)

/-- A nonempty run of decimal digits. -/
def DigitStr (l : List Char) : Prop := l ≠ [] ∧ ∀ c ∈ l, c.isDigit = true

/-- A version string the system accepts: `major.minor` with an optional
`.patch` component, e.g. `"3.11"` or `"3.11.2"`. -/
def VersionShape (v : String) : Prop :=
  ∃ d1 d2 t, v.toList = d1 ++ '.' :: (d2 ++ t) ∧ DigitStr d1 ∧ DigitStr d2 ∧
    (t = [] ∨ ∃ d3, t = '.' :: d3 ∧ DigitStr d3)

theorem versionShape_chars (v : String) (h : VersionShape v) :
    ∀ c ∈ v.toList, c.isDigit = true ∨ c = '.' := by
  obtain ⟨d1, d2, t, heq, hd1, hd2, ht⟩ := h
  intro c hc
  rw [heq] at hc
  rcases List.mem_append.mp hc with h1 | h2
  · exact Or.inl (hd1.2 c h1)
  · rcases List.mem_cons.mp h2 with rfl | h3
    · exact Or.inr rfl
    · rcases List.mem_append.mp h3 with h4 | h5
      · exact Or.inl (hd2.2 c h4)
      · rcases ht with rfl | ⟨d3, rfl, hd3⟩
        · cases h5
        · rcases List.mem_cons.mp h5 with rfl | h6
          · exact Or.inr rfl
          · exact Or.inl (hd3.2 c h6)

theorem versionShape_head (v : String) (h : VersionShape v) :
    ∃ c r, v.toList = c :: r ∧ c.isDigit = true := by
  obtain ⟨d1, d2, t, heq, hd1, _, _⟩ := h
  obtain ⟨c, r1, hc⟩ := List.exists_cons_of_ne_nil hd1.1
  refine ⟨c, r1 ++ '.' :: (d2 ++ t), ?_, hd1.2 c (hc ▸ List.mem_cons_self c r1)⟩
  rw [heq, hc]
  simp

theorem digit_or_dot_not_ws (c : Char) (h : c.isDigit = true ∨ c = '.') :
    isWsChar c = false := by
  rcases h with h | rfl
  · by_contra hw
    have hw' : isWsChar c = true := by simpa using hw
    simp only [isWsChar, Bool.or_eq_true, decide_eq_true_eq] at hw'
    rcases hw' with ((((rfl | rfl) | rfl) | rfl) | rfl) | rfl <;> simp [Char.isDigit] at h
  · rfl

theorem digit_or_dot_ne_hyphen (c : Char) (h : c.isDigit = true ∨ c = '.') :
    c ≠ '-' := by
  rcases h with h | rfl
  · rintro rfl
    exact absurd h (by decide)
  · decide

theorem findHyphenVersion_eq_none (l : List Char) (h : ∀ c ∈ l, c ≠ '-') :
    findHyphenVersion l = none := by
  induction l with
  | nil => rfl
  | cons c r ih =>
      have hc : ¬ c = '-' := h c (List.mem_cons_self c r)
      simpa [findHyphenVersion, hc] using ih (fun x hx => h x (List.mem_cons_of_mem c hx))

theorem jsTrim_append_newline (v : String) (hne : v.toList ≠ [])
    (hall : ∀ c ∈ v.toList, isWsChar c = false) :
    jsTrim (v ++ "\n") = v := by
  have htl : (v ++ "\n").toList = v.toList ++ ['\n'] := by
    simp [String.toList]
  obtain ⟨c, r, hcr⟩ := List.exists_cons_of_ne_nil hne
  have hc : isWsChar c = false := hall c (hcr ▸ List.mem_cons_self c r)
  have hfront : (v.toList ++ ['\n']).dropWhile isWsChar = v.toList ++ ['\n'] := by
    rw [hcr]
    simp [List.dropWhile_cons, hc]
  have hrevne : v.toList.reverse ≠ [] := by simpa using hne
  obtain ⟨c', r', hcr'⟩ := List.exists_cons_of_ne_nil hrevne
  have hc'mem : c' ∈ v.toList := by
    have : c' ∈ v.toList.reverse := hcr' ▸ List.mem_cons_self c' r'
    simpa using this
  have hc' : isWsChar c' = false := hall c' hc'mem
  have hback : ('\n' :: v.toList.reverse).dropWhile isWsChar = v.toList.reverse := by
    rw [List.dropWhile_cons]
    simp only [show isWsChar '\n' = true from rfl, if_true]
    rw [hcr', List.dropWhile_cons]
    simp [hc']
  show String.mk _ = v
  rw [htl, hfront]
  have : (v.toList ++ ['\n']).reverse = '\n' :: v.toList.reverse := by simp
  rw [this, hback, List.reverse_reverse]
  rfl

/-- C9: writing any accepted version string (with or without a patch
component) to `.python-version` via `updatePythonVersionFile` and reading
it back via `getPythonVersionFromFiles` yields a version with the same
`major.minor` (in fact the very same string: the extraction regex requires
a hyphen, so a plain dotted version is returned verbatim). -/
theorem pin_version_roundtrip (root : String) (pyproject : Option String)
    (v : String) (h : VersionShape v) :
    ∃ out,
      getPythonVersionFromFiles (some root) (some (updatePythonVersionFile v)) pyproject
          = some out ∧
      majorMinor out = majorMinor v := by
  have hchars := versionShape_chars v h
  have hnws : ∀ c ∈ v.toList, isWsChar c = false :=
    fun c hc => digit_or_dot_not_ws c (hchars c hc)
  obtain ⟨c, r, hcr, _⟩ := versionShape_head v h
  have hne : v.toList ≠ [] := by rw [hcr]; exact List.cons_ne_nil c r
  have htrim : jsTrim (v ++ "\n") = v := jsTrim_append_newline v hne hnws
  have hvne : ¬ v = "" := by
    intro hv
    rw [hv] at hcr
    cases hcr
  have hfind : findHyphenVersion v.toList = none :=
    findHyphenVersion_eq_none v.toList (fun x hx => digit_or_dot_ne_hyphen x (hchars x hx))
  have hfind' : findHyphenVersion v.data = none := hfind
  refine ⟨v, ?_, rfl⟩
  simp [getPythonVersionFromFiles, updatePythonVersionFile, htrim, hvne,
    extractVersionFromToolchainId, hfind']

/-- Witness for `pin_version_roundtrip` at the concrete version `"3.11"`. -/
theorem pin_version_roundtrip_witness :
    ∃ out,
      getPythonVersionFromFiles (some "/w") (some (updatePythonVersionFile "3.11")) none
          = some out ∧
      majorMinor out = majorMinor "3.11" :=
  pin_version_roundtrip "/w" none "3.11"
    ⟨['3'], ['1', '1'], [], by decide, ⟨by decide, by decide⟩, ⟨by decide, by decide⟩,
      Or.inl rfl⟩

end UVExt
